import Mathlib

/-!
Verification development for the DFLIX FTP/HTTP media-streaming service.

The definitions below are a shallow embedding of the server code:
  * `src/server/httpService.js` — directory-listing parser
    (`parseDirectoryListing`), HEAD-based size probe (`getFileSize`) and
    the streaming proxy (`streamFile`);
  * `src/server/index.js` — the `/api/stream` boundary handler and its MIME
    table (`getContentType`).

JavaScript strings are modelled by `String`, JS numbers arising from
`parseInt` by `Int` (with `JNum` adding the `NaN` case where the code can
produce it), and the Node request/response objects by explicit structures.
-/

namespace DFLIX

/-! ## JavaScript string and number primitives -/

/-- Single-quote character, written via its code point. -/
def squote : Char := Char.ofNat 39

/-- Value of a list of decimal digit characters. -/
def digitsToNat (ds : List Char) : Nat :=
  ds.foldl (fun n c => 10 * n + (c.toNat - 48)) 0

/-- Model of JS `parseInt(s, 10)` (also used for the radix-free
`parseInt(sizeStr)` calls, which on the decimal tokens that occur in
directory listings behave identically): skip leading whitespace, read an
optional sign, then the longest prefix of decimal digits; `NaN` (here
`none`) when no digit is found.  The `0x`-autodetection of radix-free
`parseInt` on hexadecimal strings is not modelled. -/
def jsParseInt (s : String) : Option Int :=
  let cs := s.toList.dropWhile (fun c => c.isWhitespace)
  match cs with
  | '-' :: rest =>
    let ds := rest.takeWhile Char.isDigit
    if ds.isEmpty then none else some (-(digitsToNat ds : Int))
  | '+' :: rest =>
    let ds := rest.takeWhile Char.isDigit
    if ds.isEmpty then none else some ((digitsToNat ds : Int))
  | _ =>
    let ds := cs.takeWhile Char.isDigit
    if ds.isEmpty then none else some ((digitsToNat ds : Int))

/-- JS number produced by `parseInt` and subsequent arithmetic: either an
integer or `NaN`. -/
inductive JNum where
  | nan
  | int (n : Int)
deriving Repr, DecidableEq

def JNum.add : JNum → JNum → JNum
  | .int a, .int b => .int (a + b)
  | _, _ => .nan

def JNum.sub : JNum → JNum → JNum
  | .int a, .int b => .int (a - b)
  | _, _ => .nan

/-- JS string conversion of a number: `NaN` prints as `"NaN"`, integers in
the usual decimal notation. -/
def JNum.str : JNum → String
  | .nan => "NaN"
  | .int n => toString n

/-- `parseInt` as used where the result flows into arithmetic. -/
def jnumParse (s : String) : JNum :=
  match jsParseInt s with
  | some n => .int n
  | none => .nan

/-- `pat.isPrefixOf l`-style substring test: JS `String.prototype.includes`. -/
def containsSub (pat : List Char) : List Char → Bool
  | [] => pat.isEmpty
  | c :: rest => pat.isPrefixOf (c :: rest) || containsSub pat rest

/-- JS `s.includes(pat)`. -/
def includes (s pat : String) : Bool :=
  containsSub pat.toList s.toList

/-- JS `s.trim()` (the whitespace involved is ASCII throughout). -/
def jsTrim (s : String) : String :=
  String.mk
    (((s.toList.dropWhile Char.isWhitespace).reverse.dropWhile
        Char.isWhitespace).reverse)

/-- JS `s.startsWith(pre)`. -/
def jsStartsWith (s pre : String) : Bool :=
  pre.toList.isPrefixOf s.toList

/-- Does the string end with `/`? (JS `s.endsWith('/')`.) -/
def endsWithSlash (s : String) : Bool :=
  match s.toList.getLast? with
  | some c => c = '/'
  | none => false

/-- JS `s.replace(/\/$/, '')`: strip one trailing slash. -/
def stripTrailingSlash (s : String) : String :=
  if endsWithSlash s then String.mk s.toList.dropLast else s

def splitOnCharAux (sep : Char) : List Char → List Char → List String
  | [], acc => [String.mk acc.reverse]
  | c :: rest, acc =>
    if c = sep then String.mk acc.reverse :: splitOnCharAux sep rest []
    else splitOnCharAux sep rest (c :: acc)

/-- JS `s.split(sep)` for a one-character separator, keeping empty
pieces. -/
def splitOnChar (sep : Char) (s : String) : List String :=
  splitOnCharAux sep s.toList []

def wsTokensAux : List Char → List Char → List String
  | [], acc => if acc.isEmpty then [] else [String.mk acc.reverse]
  | c :: rest, acc =>
    if c.isWhitespace then
      if acc.isEmpty then wsTokensAux rest []
      else String.mk acc.reverse :: wsTokensAux rest []
    else wsTokensAux rest (c :: acc)

/-- JS `s.split(/\s+/).filter(p => p && p !== '')`: the maximal
non-whitespace runs of the string. -/
def wsTokens (s : String) : List String :=
  wsTokensAux s.toList []

/-- ASCII lowercasing: JS `s.toLowerCase()` restricted to the ASCII names
(header names, extensions) it is applied to in this code. -/
def charLower (c : Char) : Char :=
  if 'A' ≤ c ∧ c ≤ 'Z' then Char.ofNat (c.toNat + 32) else c

def jsToLower (s : String) : String :=
  String.mk (s.toList.map charLower)

/-- JS `Array.prototype.join(' ')`. -/
def joinSpace : List String → String
  | [] => ""
  | [s] => s
  | s :: rest => s ++ " " ++ joinSpace rest

/-- Remove the first occurrence of `pat` from the character list: JS
`s.replace(pat, '')` with a non-global pattern. -/
def dropFirstOcc (pat : List Char) : List Char → List Char
  | [] => []
  | c :: rest =>
    if pat.isPrefixOf (c :: rest) then (c :: rest).drop pat.length
    else c :: dropFirstOcc pat rest

/-! ## URL decoding (`decodeURIComponent`)

`decodeURIComponent` turns `%XX` escapes into bytes and decodes the result
as UTF-8, throwing `URIError` on a malformed escape or invalid UTF-8; the
model returns `none` exactly where the builtin throws (overlong and
surrogate encodings are rejected like the builtin does). -/

def hexVal (c : Char) : Option Nat :=
  if c.isDigit then some (c.toNat - 48)
  else if 'A' ≤ c ∧ c ≤ 'F' then some (c.toNat - 55)
  else if 'a' ≤ c ∧ c ≤ 'f' then some (c.toNat - 87)
  else none

/-- UTF-8 bytes of one character. -/
def charUtf8 (c : Char) : List Nat :=
  let n := c.toNat
  if n < 0x80 then [n]
  else if n < 0x800 then [0xC0 + n / 64, 0x80 + n % 64]
  else if n < 0x10000 then
    [0xE0 + n / 4096, 0x80 + (n / 64) % 64, 0x80 + n % 64]
  else
    [0xF0 + n / 262144, 0x80 + (n / 4096) % 64, 0x80 + (n / 64) % 64,
     0x80 + n % 64]

/-- Percent-escapes to bytes; unescaped characters contribute their UTF-8
bytes; a `%` not followed by two hex digits is the `URIError` case. -/
def pctBytes : List Char → Option (List Nat)
  | [] => some []
  | '%' :: h1 :: h2 :: rest => do
    let a ← hexVal h1
    let b ← hexVal h2
    let t ← pctBytes rest
    pure ((16 * a + b) :: t)
  | '%' :: _ => none
  | c :: rest => do
    let t ← pctBytes rest
    pure (charUtf8 c ++ t)

def isContByte (n : Nat) : Bool :=
  decide (0x80 ≤ n) && decide (n < 0xC0)

/-- Decode one UTF-8 scalar from the front of a byte list, validating
continuation bytes, overlong encodings and the surrogate range. -/
def utf8Step : List Nat → Option (Char × List Nat)
  | [] => none
  | b :: rest =>
    if b < 0x80 then some (Char.ofNat b, rest)
    else if b < 0xC0 then none
    else if b < 0xE0 then
      match rest with
      | b1 :: rest1 =>
        if isContByte b1 then
          let n := (b - 0xC0) * 64 + (b1 - 0x80)
          if n < 0x80 then none else some (Char.ofNat n, rest1)
        else none
      | _ => none
    else if b < 0xF0 then
      match rest with
      | b1 :: b2 :: rest2 =>
        if isContByte b1 && isContByte b2 then
          let n := (b - 0xE0) * 4096 + (b1 - 0x80) * 64 + (b2 - 0x80)
          if n < 0x800 then none
          else if 0xD800 ≤ n ∧ n < 0xE000 then none
          else some (Char.ofNat n, rest2)
        else none
      | _ => none
    else if b < 0xF8 then
      match rest with
      | b1 :: b2 :: b3 :: rest3 =>
        if isContByte b1 && isContByte b2 && isContByte b3 then
          let n := (b - 0xF0) * 262144 + (b1 - 0x80) * 4096 +
                   (b2 - 0x80) * 64 + (b3 - 0x80)
          if n < 0x10000 then none
          else if n > 0x10FFFF then none
          else some (Char.ofNat n, rest3)
        else none
      | _ => none
    else none

def utf8DecodeAux : Nat → List Nat → Option (List Char)
  | _, [] => some []
  | 0, _ => none
  | fuel + 1, bs =>
    match utf8Step bs with
    | none => none
    | some (c, rest) => (utf8DecodeAux fuel rest).map (c :: ·)

def utf8Decode (bs : List Nat) : Option (List Char) :=
  utf8DecodeAux bs.length bs

/-- Model of JS `decodeURIComponent`; `none` where the builtin throws. -/
def jsDecode (s : String) : Option String := do
  let bs ← pctBytes s.toList
  let cs ← utf8Decode bs
  pure (String.mk cs)

/-! ## The directory-listing entry (`parseDirectoryListing`'s output rows) -/

/-- Value of `modified` on an entry.  The primary branch of the listing
parser builds `new Date(year, monthIndex, day, hour, minute)` from the
`DD-MMM-YYYY HH:MM` regex captures; for the captured ranges this `Date` is
always valid, and its (timezone-dependent) ISO serialisation is not
modelled — the fields themselves are kept. -/
inductive DateVal where
  | fields (year month day hour minute : Nat)
deriving Repr, DecidableEq

/-- One row produced by `parseDirectoryListing`. -/
structure Entry where
  name : String
  type : String
  size : Int
  modified : Option DateVal
  path : String
deriving Repr, DecidableEq

/-! ## Anchor extraction

`line.match(/<a[^>]*href=["']([^"']+)["'][^>]*>([^<]+)<\/a>/)` from
`parseDirectoryListing`.  The matcher below reproduces the regex engine's
leftmost-match rule and the greedy/backtracking behaviour of each piece:
after `href=` every quantifier in the pattern is forced (each maximal run
is followed by a mandatory character outside its class), so the only real
backtracking is over which `href=` occurrence inside the first `[^>]*`
run is used — greedy, i.e. the last one first. -/

def isQuoteChar (c : Char) : Bool := c = '"' || c = squote

/-- Match `["']([^"']+)["'][^>]*>([^<]+)<\/a>` at the head of `cs`,
returning the two captures. -/
def anchorAfterHref (cs : List Char) : Option (String × String) :=
  match cs with
  | [] => none
  | q :: rest =>
    if isQuoteChar q then
      let g1 := rest.takeWhile (fun c => ! isQuoteChar c)
      if g1.isEmpty then none
      else
        match rest.drop g1.length with
        | [] => none
        | _ :: rest2 =>
          match rest2.dropWhile (· ≠ '>') with
          | '>' :: rest4 =>
            let g2 := rest4.takeWhile (· ≠ '<')
            if g2.isEmpty then none
            else if ("</a>".toList).isPrefixOf (rest4.drop g2.length) then
              some (String.mk g1, String.mk g2)
            else none
          | _ => none
    else none

/-- Try the whole anchor pattern at the current position: `<a`, then
`[^>]*` with `href=` somewhere inside it (greedy: the latest occurrence is
preferred), then `anchorAfterHref`. -/
def anchorFromStart (cs : List Char) : Option (String × String) :=
  match cs with
  | '<' :: 'a' :: rest =>
    let n := (rest.takeWhile (· ≠ '>')).length
    ((List.range (n + 1)).reverse).findSome? (fun k =>
      if ("href=".toList).isPrefixOf (rest.drop k) then
        anchorAfterHref (rest.drop (k + 5))
      else none)
  | _ => none

/-- Leftmost match of the anchor regex in a line; `none` models a failed
`line.match(...)`. -/
def findAnchor : List Char → Option (String × String)
  | [] => none
  | c :: rest =>
    match anchorFromStart (c :: rest) with
    | some r => some r
    | none => findAnchor rest

/-! ## Metadata after the anchor -/

/-- First match of `line.replace(/<a[^>]*>.*?<\/a>/, '')`: the lazy `.*?`
stops at the first `</a>` after the first `>` following a `<a`. -/
def findCloseA : List Char → Option (List Char)
  | [] => none
  | c :: rest =>
    if ("</a>".toList).isPrefixOf (c :: rest) then some ((c :: rest).drop 4)
    else findCloseA rest

def anchorSpanAt (cs : List Char) : Option (List Char) :=
  match cs with
  | '<' :: 'a' :: rest =>
    match rest.dropWhile (· ≠ '>') with
    | '>' :: rest2 => findCloseA rest2
    | _ => none
  | _ => none

/-- `line.replace(/<a[^>]*>.*?<\/a>/, '')`: delete the first anchor span. -/
def removeAnchor : List Char → List Char
  | [] => []
  | c :: rest =>
    match anchorSpanAt (c :: rest) with
    | some rem => rem
    | none => c :: removeAnchor rest

/-- `afterLink.split(/\s+/).filter(p => p && p !== '')` applied to the
line with its first anchor removed and trimmed. -/
def metaParts (line : String) : List String :=
  wsTokens (jsTrim (String.mk (removeAnchor line.toList)))

/-! ## Size token (`parseDirectoryListing` lines 132, 138, 167–179) -/

/-- The `size` computed from the metadata tokens: with ≥ 3 tokens the last
one (unless `-` or unparseable), with exactly 2 tokens the second one
(unless `-` or unparseable), otherwise 0. -/
def sizeFromParts (parts : List String) : Int :=
  if 2 ≤ parts.length then
    if 3 ≤ parts.length then
      let sizeStr := parts.getLastD ""
      if sizeStr ≠ "-" then
        match jsParseInt sizeStr with
        | some n => n
        | none => 0
      else 0
    else
      if parts.getD 1 "" ≠ "-" then
        match jsParseInt (parts.getD 1 "") with
        | some n => n
        | none => 0
      else 0
  else 0

/-! ## Date token (`parseDirectoryListing` lines 138–165) -/

/-- JS `\w`. -/
def isWordChar (c : Char) : Bool := c.isAlpha || c.isDigit || c = '_'

def twoDigitsAt (cs : List Char) : Option (Nat × List Char) :=
  match cs with
  | a :: b :: rest =>
    if a.isDigit && b.isDigit then
      some (digitsToNat [a, b], rest)
    else none
  | _ => none

def fourDigitsAt (cs : List Char) : Option (Nat × List Char) :=
  match cs with
  | a :: b :: c :: d :: rest =>
    if a.isDigit && b.isDigit && c.isDigit && d.isDigit then
      some (digitsToNat [a, b, c, d], rest)
    else none
  | _ => none

def threeWordAt (cs : List Char) : Option (String × List Char) :=
  match cs with
  | a :: b :: c :: rest =>
    if isWordChar a && isWordChar b && isWordChar c then
      some (String.mk [a, b, c], rest)
    else none
  | _ => none

def expectChar (c : Char) (cs : List Char) : Option (List Char) :=
  match cs with
  | d :: rest => if d = c then some rest else none
  | [] => none

/-- Match `(\d{2})-(\w{3})-(\d{4})\s+(\d{2}):(\d{2})` at this position. -/
def dateMatchAt (cs : List Char) : Option (Nat × String × Nat × Nat × Nat) := do
  let (dd, cs) ← twoDigitsAt cs
  let cs ← expectChar '-' cs
  let (mon, cs) ← threeWordAt cs
  let cs ← expectChar '-' cs
  let (yy, cs) ← fourDigitsAt cs
  let cs ← match cs with
    | c :: rest =>
      if c.isWhitespace then some (rest.dropWhile (fun c => c.isWhitespace))
      else none
    | [] => none
  let (hh, cs) ← twoDigitsAt cs
  let cs ← expectChar ':' cs
  let (mm, _) ← twoDigitsAt cs
  pure (dd, mon, yy, hh, mm)

/-- Unanchored search for the date pattern (`dateStr.match(...)`). -/
def dateSearch : List Char → Option (Nat × String × Nat × Nat × Nat)
  | [] => none
  | c :: rest =>
    match dateMatchAt (c :: rest) with
    | some r => some r
    | none => dateSearch rest

/-- The `monthMap` object literal. -/
def monthIndex (m : String) : Option Nat :=
  [("Jan", 0), ("Feb", 1), ("Mar", 2), ("Apr", 3), ("May", 4), ("Jun", 5),
   ("Jul", 6), ("Aug", 7), ("Sep", 8), ("Oct", 9), ("Nov", 10),
   ("Dec", 11)].lookup m

/-- The `modified` value of a row.  `gd` is the model of the generic
`new Date(dateStr)` fallback (line 158), whose accepted formats are
implementation-defined in ECMA-262; `gd dateStr = none` is the
Invalid-Date case.  In the regex branch `new Date(y, m, d, hh, mm)` is
always a valid date for the captured ranges, so the `isNaN` guard never
fires there. -/
def parseModified (gd : String → Option DateVal) (parts : List String) :
    Option DateVal :=
  if 2 ≤ parts.length then
    let dateStr := joinSpace (parts.take 2)
    match dateSearch dateStr.toList with
    | some (dd, mon, yy, hh, mm) =>
      match monthIndex mon with
      | some mi => some (DateVal.fields yy mi dd hh mm)
      | none => none
    | none => gd dateStr
  else none

/-- A generic-date model in which `new Date(dateStr)` is always an Invalid
Date; used to instantiate theorems at concrete inputs whose lines do not
depend on the generic branch's result. -/
def genericDateNone : String → Option DateVal := fun _ => none

/-! ## Path building and row emission (`parseDirectoryListing` 106–202) -/

/-- Lines 184–194: the canonical path of a row, from the cleaned href. -/
def resolvePath (currentPath cleanHref : String) : String :=
  if currentPath = "/" then "/" ++ cleanHref
  else if jsStartsWith cleanHref "/" then cleanHref
  else currentPath ++ "/" ++ cleanHref

/-- Lines 106–202 of `parseDirectoryListing`: what happens to a line once
the anchor regex has matched, producing captures `href0` (raw href) and
`name0` (trimmed visible text), with `parts` the post-anchor metadata
tokens. -/
def emitEntry (gd : String → Option DateVal) (currentPath href0 name0 : String)
    (parts : List String) : Option Entry :=
  if href0 = "../" ∨ name0 = "../" then none
  else
    let href := (jsDecode href0).getD href0
    let name := (jsDecode name0).getD name0
    let isDirectory := endsWithSlash href || endsWithSlash name
    let cleanHref := stripTrailingSlash href
    let cleanName := stripTrailingSlash name
    some { name := cleanName,
           type := if isDirectory then "directory" else "file",
           size := sizeFromParts parts,
           modified := parseModified gd parts,
           path := resolvePath currentPath cleanHref }

/-- The body of the `lines.forEach` loop (lines 91–203): skip blank lines
and parent-directory lines, extract the anchor, and emit the row. -/
def lineToEntry (gd : String → Option DateVal) (currentPath line : String) :
    Option Entry :=
  if (jsTrim line).toList.isEmpty then none
  else if includes line "../" || includes line "href=\"../\"" then none
  else
    match findAnchor line.toList with
    | none => none
    | some (h, n) =>
      emitEntry gd currentPath h (jsTrim n) (metaParts line)

/-- The primary branch on an explicit list of lines:
`lines.filter(line => line.trim()).forEach(...)`. -/
def parseLines (gd : String → Option DateVal) (currentPath : String)
    (lines : List String) : List Entry :=
  (lines.filter (fun l => ! (jsTrim l).toList.isEmpty)).filterMap
    (lineToEntry gd currentPath)

/-- The primary (pre-block) branch of `parseDirectoryListing` (lines
87–206), on the `<pre>` innerHTML. -/
def parseDirectoryListingPre (gd : String → Option DateVal)
    (currentPath preHTML : String) : List Entry :=
  parseLines gd currentPath (splitOnChar '\n' preHTML)

/-! ## Fallback branch (`parseDirectoryListing` lines 62–84) -/

/-- The path join used by the fallback branch (line 73). -/
def fallbackJoin (currentPath cleanName : String) : String :=
  if currentPath = "/" then "/" ++ cleanName else currentPath ++ "/" ++ cleanName

/-- The body of the `allLinks.forEach` loop in the fallback branch: `href`
is the anchor's `href` attribute (`""` standing for the absent/null
attribute, which the truthiness guard also skips), `text` its
`textContent`. -/
def fallbackEntry (currentPath href text : String) : Option Entry :=
  if href ≠ "" ∧ href ≠ "../" ∧ ¬ jsStartsWith href "http" then
    let name := jsTrim text
    if name ≠ "" ∧ name ≠ "../" then
      let isDirectory := endsWithSlash href
      let cleanName := stripTrailingSlash name
      some { name := cleanName,
             type := if isDirectory then "directory" else "file",
             size := 0,
             modified := none,
             path := fallbackJoin currentPath cleanName }
    else none
  else none

/-! ## Upstream requests (`httpService.js`) -/

def uaString : String :=
  "Mozilla/5.0 (Windows NT 10.0; Win64; x64) AppleWebKit/537.36"

/-- Default `this.baseUrl` (the `HTTP_SERVER_URL` fallback). -/
def baseUrl : String := "http://cdn.dflix.live"

/-- An upstream HTTP request as built by `httpService` (the split of the
URL into hostname/port/path by `url.parse` is kept as the joined URL). -/
structure UpstreamReq where
  method : String
  url : String
  headers : List (String × String)
deriving Repr, DecidableEq

/-- First header with the given name (header construction in the code
uses fixed distinct names). -/
def lookupHeader (hs : List (String × String)) (k : String) : Option String :=
  (hs.find? (fun p => p.1 == k)).map (fun p => p.2)

/-- The GET issued by `streamFile` (lines 310–335): a `Range` header is
added only when `start > 0` or `end` is non-null, in the form
`bytes={start}-{end}` or `bytes={start}-`. -/
def streamRequest (base filePath : String) (start : Int) (endv : Option Int) :
    UpstreamReq :=
  { method := "GET",
    url := base ++ filePath,
    headers :=
      if start > 0 ∨ endv ≠ none then
        match endv with
        | some e =>
          [("User-Agent", uaString),
           ("Range", "bytes=" ++ toString start ++ "-" ++ toString e)]
        | none =>
          [("User-Agent", uaString), ("Range", "bytes=" ++ toString start ++ "-")]
      else [("User-Agent", uaString)] }

/-- The HEAD issued by `getFileSize` (lines 244–259). -/
def sizeRequest (filePath : String) : UpstreamReq :=
  { method := "HEAD",
    url := baseUrl ++ filePath,
    headers := [("User-Agent", uaString)] }

/-! ## `getFileSize` result (lines 261–282) -/

/-- How one HEAD exchange can complete: a response (whose header names
Node delivers lowercased), a request error, or the 10s timeout. -/
inductive HeadExchange where
  | response (headers : List (String × String))
  | reqError (msg : String)
  | timeout
deriving Repr, DecidableEq

/-- The promise outcome of `getFileSize`: `Content-Length` parsed when the
header is present and truthy (non-empty), `0` otherwise; rejection exactly
on request error and timeout. -/
def getFileSizeResult (ex : HeadExchange) : Except String JNum :=
  match ex with
  | .response hs =>
    match lookupHeader hs "content-length" with
    | some s => if s = "" then .ok (.int 0) else .ok (jnumParse s)
    | none => .ok (.int 0)
  | .reqError m => .error m
  | .timeout => .error "Request timeout"

/-! ## Header forwarding in `streamFile` (lines 337–348) -/

/-- The client response object, as far as `streamFile` writes to it. -/
structure Sink where
  statusCode : Nat
  headers : List (String × String)
deriving Repr, DecidableEq

/-- Node's `response.setHeader`: replace any header with the same
case-insensitive name (modelled as remove-then-append; for the distinct
upstream keys the fold below only ever appends). -/
def setHeader (hs : List (String × String)) (k v : String) :
    List (String × String) :=
  hs.filter (fun p => jsToLower p.1 != jsToLower k) ++ [(k, v)]

def notBannedHeader (kv : String × String) : Bool :=
  jsToLower kv.1 != "content-encoding" && jsToLower kv.1 != "transfer-encoding"

/-- Lines 338–348: when the sink has not sent headers yet, copy the
upstream status code and `setHeader` every upstream header except
`content-encoding` and `transfer-encoding`. -/
def forwardHeaders (headersSent : Bool) (upStatus : Nat)
    (upHeaders : List (String × String)) (sink : Sink) : Sink :=
  if headersSent then sink
  else
    { statusCode := upStatus,
      headers :=
        upHeaders.foldl
          (fun hs kv =>
            if notBannedHeader kv then setHeader hs kv.1 kv.2 else hs)
          sink.headers }

/-! ## Transport-failure semantics (`streamFile` 353–384, boundary 72–77) -/

/-- The terminal transport event of one stream call. -/
inductive TransportEvent where
  | reqError (msg : String)
  | timeout
  | resError (msg : String)
  | resEnd
deriving Repr, DecidableEq

/-- How `streamFile`'s promise settles on each terminal event: every
failure handler rejects only when `response.headersSent` is false and
otherwise resolves silently (lines 353–381). -/
def streamFileResult (headersSent : Bool) (ev : TransportEvent) :
    Except String Unit :=
  match ev with
  | .resEnd => .ok ()
  | .resError m => if headersSent then .ok () else .error m
  | .reqError m => if headersSent then .ok () else .error m
  | .timeout => if headersSent then .ok () else .error "Request timeout"

/-- The `catch` block of the `/api/stream` handler (index.js 72–77): on a
rejection it writes `res.status(500).json({error: message})` only if
headers have not been sent.  The pair is (status, error message of the
JSON payload). -/
def boundaryErrorResponse (headersSent : Bool) (msg : String) :
    Option (Nat × String) :=
  if headersSent then none else some (500, msg)

/-- The error body (if any) the boundary writes for a given terminal
transport event of `streamFile`. -/
def streamFailureResponse (headersSent : Bool) (ev : TransportEvent) :
    Option (Nat × String) :=
  match streamFileResult headersSent ev with
  | .ok _ => none
  | .error m => boundaryErrorResponse headersSent m

/-! ## The `/api/stream` boundary head (`index.js` 34–78, 97–135) -/

/-- `path.extname(filePath)`: the suffix of the basename from its last
dot, empty when there is no dot or the dot is the basename's first
character. -/
def extname (p : String) : String :=
  let base := (splitOnChar '/' p).getLastD ""
  let cs := base.toList
  let revTail := cs.reverse.takeWhile (· ≠ '.')
  if revTail.length + 1 < cs.length then "." ++ String.mk revTail.reverse
  else ""

/-- The `contentTypes` object literal of `getContentType`.  The source
lists `.ogg` twice ( `'video/ogg'` then `'audio/ogg'` ); in a JS object
literal the later value wins, so the key appears here once with
`audio/ogg`. -/
def contentTypes : List (String × String) :=
  [(".mp4", "video/mp4"), (".webm", "video/webm"), (".ogg", "audio/ogg"),
   (".ogv", "video/ogg"), (".mkv", "video/x-matroska"),
   (".avi", "video/x-msvideo"), (".mov", "video/quicktime"),
   (".wmv", "video/x-ms-wmv"), (".flv", "video/x-flv"),
   (".m4v", "video/x-m4v"), (".3gp", "video/3gpp"), (".ts", "video/mp2t"),
   (".mts", "video/mp2t"), (".mp3", "audio/mpeg"), (".wav", "audio/wav"),
   (".m4a", "audio/mp4"), (".flac", "audio/flac"), (".aac", "audio/aac"),
   (".oga", "audio/ogg"), (".opus", "audio/opus"), (".wma", "audio/x-ms-wma"),
   (".jpg", "image/jpeg"), (".jpeg", "image/jpeg"), (".png", "image/png"),
   (".gif", "image/gif"), (".pdf", "application/pdf"), (".txt", "text/plain"),
   (".json", "application/json")]

def getContentType (filePath : String) : String :=
  match contentTypes.lookup (jsToLower (extname filePath)) with
  | some t => t
  | none => "application/octet-stream"

/-- The head (status and headers) written by the `/api/stream` handler via
`res.writeHead`, before it delegates the body to `streamFile`. -/
structure StreamHead where
  status : Nat
  contentRange : Option String
  acceptRanges : String
  contentLength : JNum
  contentType : String
  cacheControl : String
deriving Repr, DecidableEq

/-- Lines 44–71 of `index.js`: with a `Range` request header, parse
`bytes=start-end` (an absent or empty end token defaulting to
`fileSize - 1`) and write a 206 head; without one, write a 200 head. -/
def streamHead (rangeHeader : Option String) (fileSize : JNum)
    (filePath : String) : StreamHead :=
  match rangeHeader with
  | some range =>
    let parts :=
      splitOnChar '-' (String.mk (dropFirstOcc "bytes=".toList range.toList))
    let start := jnumParse (parts.getD 0 "")
    let endv :=
      match parts.getD 1 "" with
      | "" => fileSize.sub (.int 1)
      | p => jnumParse p
    let chunksize := (endv.sub start).add (.int 1)
    { status := 206,
      contentRange :=
        some ("bytes " ++ start.str ++ "-" ++ endv.str ++ "/" ++ fileSize.str),
      acceptRanges := "bytes",
      contentLength := chunksize,
      contentType := getContentType filePath,
      cacheControl := "no-cache" }
  | none =>
    { status := 200,
      contentRange := none,
      acceptRanges := "bytes",
      contentLength := fileSize,
      contentType := getContentType filePath,
      cacheControl := "no-cache" }

/-! ## Helper lemmas -/

theorem emitEntry_path {gd : String → Option DateVal} {cp h n : String}
    {ps : List String} {e : Entry} (he : emitEntry gd cp h n ps = some e) :
    e.path = resolvePath cp (stripTrailingSlash ((jsDecode h).getD h)) := by
  simp only [emitEntry] at he
  split at he
  · exact Option.noConfusion he
  · obtain rfl := Option.some.inj he
    rfl

theorem emitEntry_size {gd : String → Option DateVal} {cp h n : String}
    {ps : List String} {e : Entry} (he : emitEntry gd cp h n ps = some e) :
    e.size = sizeFromParts ps := by
  simp only [emitEntry] at he
  split at he
  · exact Option.noConfusion he
  · obtain rfl := Option.some.inj he
    rfl

theorem lineToEntry_size {gd : String → Option DateVal} {cp line : String}
    {e : Entry} (h : lineToEntry gd cp line = some e) :
    e.size = sizeFromParts (metaParts line) := by
  simp only [lineToEntry] at h
  split at h
  · exact Option.noConfusion h
  split at h
  · exact Option.noConfusion h
  split at h
  · exact Option.noConfusion h
  · exact emitEntry_size h

/-- Behaviour of the size-token computation whenever there are at least
two metadata tokens: the trailing token decides the size. -/
theorem sizeFromParts_spec (ps : List String) (h2 : 2 ≤ ps.length) :
    (ps.getLastD "" = "-" → sizeFromParts ps = 0)
    ∧ (∀ n : Int, jsParseInt (ps.getLastD "") = some n →
        ps.getLastD "" ≠ "-" → sizeFromParts ps = n)
    ∧ (jsParseInt (ps.getLastD "") = none → sizeFromParts ps = 0) := by
  by_cases h3 : 3 ≤ ps.length
  · unfold sizeFromParts
    rw [if_pos h2, if_pos h3]
    refine ⟨fun hd => ?_, fun n hn hne => ?_, fun hn => ?_⟩
    · rw [if_neg (fun hne => hne hd)]
    · rw [if_pos hne, hn]
    · by_cases hd : ps.getLastD "" = "-"
      · rw [if_neg (fun hne => hne hd)]
      · rw [if_pos hd, hn]
  · rcases ps with _ | ⟨a, _ | ⟨b, _ | ⟨c, t⟩⟩⟩
    · simp at h2
    · simp at h2
    · have e1 : sizeFromParts [a, b] =
          (if b ≠ "-" then
             (match jsParseInt b with | some n => n | none => 0)
           else 0) := by
        unfold sizeFromParts
        rw [if_pos (by simp), if_neg (by simp)]
        rfl
      have eLast : ([a, b] : List String).getLastD "" = b := rfl
      rw [eLast]
      refine ⟨fun hd => ?_, fun n hn hne => ?_, fun hn => ?_⟩
      · rw [e1, if_neg (fun hne => hne hd)]
      · rw [e1, if_pos hne, hn]
      · by_cases hd : b = "-"
        · rw [e1, if_neg (fun hne => hne hd)]
        · rw [e1, if_pos hd, hn]
    · exfalso
      apply h3
      simp only [List.length_cons]
      omega

/-- The fold that forwards headers, run over distinct-keyed upstream
headers onto an accumulator with disjoint keys, appends exactly the
non-banned headers. -/
theorem foldl_setHeader_eq :
    ∀ (hs acc : List (String × String)),
      (∀ kv ∈ hs, ∀ kv2 ∈ acc, jsToLower kv.1 ≠ jsToLower kv2.1) →
      (hs.map (fun kv => jsToLower kv.1)).Nodup →
      hs.foldl
        (fun a kv => if notBannedHeader kv then setHeader a kv.1 kv.2 else a)
        acc
      = acc ++ hs.filter notBannedHeader := by
  intro hs
  induction hs with
  | nil => intro acc _ _; simp
  | cons kv rest ih =>
    intro acc hdis hnd
    have hnd1 : jsToLower kv.1 ∉ rest.map (fun kv => jsToLower kv.1) :=
      (List.nodup_cons.mp hnd).1
    have hnd2 : (rest.map (fun kv => jsToLower kv.1)).Nodup :=
      (List.nodup_cons.mp hnd).2
    simp only [List.foldl_cons, List.filter_cons]
    by_cases hb : notBannedHeader kv
    · rw [if_pos hb, if_pos hb]
      have hset : setHeader acc kv.1 kv.2 = acc ++ [(kv.1, kv.2)] := by
        unfold setHeader
        congr 1
        rw [List.filter_eq_self]
        intro p hp
        simp only [bne_iff_ne, ne_eq, decide_eq_true_eq]
        exact fun hpe => (hdis kv (by simp) p hp) hpe.symm
      have hdis2 : ∀ kv1 ∈ rest, ∀ kv2 ∈ acc ++ [(kv.1, kv.2)],
          jsToLower kv1.1 ≠ jsToLower kv2.1 := by
        intro kv1 h1 kv2 h2
        rcases List.mem_append.mp h2 with h2 | h2
        · exact hdis kv1 (List.mem_cons_of_mem _ h1) kv2 h2
        · have : kv2 = (kv.1, kv.2) := by simpa using h2
          subst this
          intro habs
          exact hnd1 (habs ▸ List.mem_map_of_mem (fun kv => jsToLower kv.1) h1)
      rw [hset, ih (acc ++ [(kv.1, kv.2)]) hdis2 hnd2, List.append_assoc]
      rfl
    · rw [if_neg hb, if_neg hb]
      exact ih acc (fun kv1 h1 => hdis kv1 (List.mem_cons_of_mem _ h1)) hnd2

theorem string_append_left_cancel {s a b : String} (h : s ++ a = s ++ b) :
    a = b := by
  have hd : s.data ++ a.data = s.data ++ b.data := by
    have := congrArg String.data h
    simpa [String.data_append] using this
  have hab : a.data = b.data := List.append_cancel_left hd
  exact congrArg String.mk hab

theorem fallbackJoin_inj {cp a b : String}
    (h : fallbackJoin cp a = fallbackJoin cp b) : a = b := by
  unfold fallbackJoin at h
  split at h
  · exact string_append_left_cancel h
  · exact string_append_left_cancel h

/-! ## Claims -/

/-- C1 (counterexample): at the pair `(currentPath, href) = ("/", "/a/c/")`
from the claimed product set, the row emitted by the listing parser has
path `"//a/c"`, which contains a doubled slash — refuting the claimed
invariant. -/
theorem claim_c1_counterexample :
    (lineToEntry genericDateNone "/"
        "<a href=\"/a/c/\">c</a> 07-Dec-2025 10:36 -").map Entry.path
      = some "//a/c"
    ∧ includes "//a/c" "//" = true :=
  ⟨rfl, rfl⟩

/-- C1 (amended): for every `(currentPath, href)` pair drawn from
`{"/", "/a", "/a/b"} × {"c/", "/a/c/", "c.mp4"}` **except**
`("/", "/a/c/")`, every Entry emitted by the primary (pre-block) branch of
`parseDirectoryListing` whose anchor href is `href` has a path that begins
with `/`, contains no doubled slash, and does not end with `/` except for
the root. -/
theorem claim_c1 (gd : String → Option DateVal) (cp href name : String)
    (parts : List String) (e : Entry)
    (hcp : cp = "/" ∨ cp = "/a" ∨ cp = "/a/b")
    (hhref : href = "c/" ∨ href = "/a/c/" ∨ href = "c.mp4")
    (hex : ¬ (cp = "/" ∧ href = "/a/c/"))
    (he : emitEntry gd cp href name parts = some e) :
    jsStartsWith e.path "/" = true ∧ includes e.path "//" = false ∧
      (endsWithSlash e.path = true → e.path = "/") := by
  have hp := emitEntry_path he
  rcases hcp with rfl | rfl | rfl <;> rcases hhref with rfl | rfl | rfl <;>
    first
      | (rw [hp]; decide)
      | exact absurd ⟨rfl, rfl⟩ hex

/-- C1 (witness): the amended theorem applied at
`(currentPath, href) = ("/a", "c/")`. -/
theorem claim_c1_witness :
    emitEntry genericDateNone "/a" "c/" "c/" [] =
      some { name := "c", type := "directory", size := 0,
             modified := none, path := "/a/c" }
    ∧ (jsStartsWith "/a/c" "/" = true ∧ includes "/a/c" "//" = false ∧
        (endsWithSlash "/a/c" = true → "/a/c" = "/")) := by
  refine ⟨rfl, ?_⟩
  exact claim_c1 genericDateNone "/a" "c/" "c/" []
    { name := "c", type := "directory", size := 0, modified := none,
      path := "/a/c" }
    (Or.inr (Or.inl rfl)) (Or.inl rfl) (by decide) rfl

/-- C2: a `Range: bytes=100-199` stream request on a 1000-byte resource
yields status 206, `Content-Range: bytes 100-199/1000` and
`Content-Length: 100`; the unranged request yields status 200 and
`Content-Length: 1000`. -/
theorem claim_c2 :
    streamHead (some "bytes=100-199") (.int 1000) "/movie.mp4" =
      { status := 206, contentRange := some "bytes 100-199/1000",
        acceptRanges := "bytes", contentLength := .int 100,
        contentType := "video/mp4", cacheControl := "no-cache" }
    ∧ streamHead none (.int 1000) "/movie.mp4" =
      { status := 200, contentRange := none, acceptRanges := "bytes",
        contentLength := .int 1000, contentType := "video/mp4",
        cacheControl := "no-cache" } :=
  ⟨rfl, rfl⟩

/-- C3: the listing parser is a total function into entry lists, and a
line on which the anchor pattern fails is skipped without affecting the
other lines: dropping an unparseable line from any line list leaves the
result unchanged, and the concrete 3-line pre-block with one malformed
anchor yields exactly the 2 entries of its well-formed lines. -/
theorem claim_c3 :
    (∀ (gd : String → Option DateVal) (cp : String) (xs ys : List String)
        (bad : String),
        lineToEntry gd cp bad = none →
        parseLines gd cp (xs ++ bad :: ys) = parseLines gd cp (xs ++ ys))
    ∧ parseDirectoryListingPre genericDateNone "/"
        "<a href=\"Movies/\">Movies/</a>   07-Dec-2025 10:36    -\n<a href=broken line\n<a href=\"song.mp3\">song.mp3</a>   07-Dec-2025 10:36   123456"
      = [{ name := "Movies", type := "directory", size := 0,
           modified := some (.fields 2025 11 7 10 36), path := "/Movies" },
         { name := "song.mp3", type := "file", size := 123456,
           modified := some (.fields 2025 11 7 10 36), path := "/song.mp3" }] := by
  constructor
  · intro gd cp xs ys bad hbad
    unfold parseLines
    rw [List.filter_append, List.filter_append, List.filter_cons]
    by_cases hb : (! (jsTrim bad).toList.isEmpty) = true
    · rw [if_pos hb, List.filterMap_append, List.filterMap_append,
        List.filterMap_cons, hbad]
    · rw [if_neg hb]
  · rfl

/-- C3 (witness): the skip property applied to a concrete well-formed line
and the concrete unparseable line `"<a"`. -/
theorem claim_c3_witness :
    parseLines genericDateNone "/"
      (["<a href=\"x\">x</a> 07-Dec-2025 10:36 5"] ++ "<a" :: []) =
    parseLines genericDateNone "/"
      (["<a href=\"x\">x</a> 07-Dec-2025 10:36 5"] ++ []) :=
  claim_c3.1 genericDateNone "/" ["<a href=\"x\">x</a> 07-Dec-2025 10:36 5"]
    [] "<a" rfl

/-- C4 (counterexample): a parsed listing line whose post-anchor metadata
is the single token `"1234"` has trailing token `"1234"` but size `0`,
refuting the claimed rule for every parsed listing line. -/
theorem claim_c4_counterexample :
    metaParts "<a href=\"f.bin\">f.bin</a> 1234" = ["1234"]
    ∧ (lineToEntry genericDateNone "/"
        "<a href=\"f.bin\">f.bin</a> 1234").map Entry.size = some 0 :=
  ⟨rfl, rfl⟩

/-- C4 (amended): for every parsed listing line with **at least two**
post-anchor metadata tokens, the size-token rule holds: a trailing token
`"-"` yields size 0, a trailing token parsing as an integer (such as
`"1234"`) yields that integer, and a trailing token on which JS `parseInt`
yields `NaN` gives size 0.  (A line with fewer than two tokens always gets
size 0, whatever its trailing token.) -/
theorem claim_c4 (gd : String → Option DateVal) (cp line : String) (e : Entry)
    (h : lineToEntry gd cp line = some e)
    (hlen : 2 ≤ (metaParts line).length) :
    ((metaParts line).getLastD "" = "-" → e.size = 0)
    ∧ (∀ n : Int, jsParseInt ((metaParts line).getLastD "") = some n →
        (metaParts line).getLastD "" ≠ "-" → e.size = n)
    ∧ (jsParseInt ((metaParts line).getLastD "") = none → e.size = 0) := by
  have hs := lineToEntry_size h
  rw [hs]
  exact sizeFromParts_spec _ hlen

/-- C4 (witness): the amended rule applied to a 3-token line with trailing
token `"1234"`. -/
theorem claim_c4_witness :
    lineToEntry genericDateNone "/" "<a href=\"f\">f</a> 07-Dec-2025 10:36 1234"
      = some { name := "f", type := "file", size := 1234,
               modified := some (.fields 2025 11 7 10 36), path := "/f" }
    ∧ ({ name := "f", type := "file", size := 1234,
         modified := some (.fields 2025 11 7 10 36), path := "/f" } : Entry).size
        = 1234 := by
  refine ⟨rfl, ?_⟩
  exact (claim_c4 genericDateNone "/"
    "<a href=\"f\">f</a> 07-Dec-2025 10:36 1234"
    { name := "f", type := "file", size := 1234,
      modified := some (.fields 2025 11 7 10 36), path := "/f" }
    rfl (by decide)).2.1 1234 rfl (by decide)

/-- C5: for every terminal transport failure of a stream call (request
error, timeout, or response-stream error), the boundary answers HTTP 500
with a JSON error payload when no response header has been sent, and
writes no error body at all when headers have been sent. -/
theorem claim_c5 (ev : TransportEvent) (hfail : ev ≠ TransportEvent.resEnd) :
    (∃ m, streamFailureResponse false ev = some (500, m))
    ∧ streamFailureResponse true ev = none := by
  cases ev with
  | reqError m => exact ⟨⟨m, rfl⟩, rfl⟩
  | timeout => exact ⟨⟨"Request timeout", rfl⟩, rfl⟩
  | resError m => exact ⟨⟨m, rfl⟩, rfl⟩
  | resEnd => exact absurd rfl hfail

/-- C5 (witness): the failure semantics applied to the concrete timeout
event. -/
theorem claim_c5_witness :
    streamFailureResponse true TransportEvent.timeout = none :=
  (claim_c5 TransportEvent.timeout (by decide)).2

/-- C6: the upstream GET of `streamFile` carries a `Range` header — of the
form `bytes={start}-{end}` when `end` is non-null and `bytes={start}-`
otherwise — exactly when `start > 0` or `end` is non-null; with `start = 0`
and `end` null it is a plain GET without a `Range` header. -/
theorem claim_c6 (base filePath : String) (start : Int) (endv : Option Int) :
    (streamRequest base filePath start endv).method = "GET"
    ∧ lookupHeader (streamRequest base filePath start endv).headers "Range"
        = (if start > 0 ∨ endv ≠ none then
             some (match endv with
                   | some e => "bytes=" ++ toString start ++ "-" ++ toString e
                   | none => "bytes=" ++ toString start ++ "-")
           else none) := by
  refine ⟨rfl, ?_⟩
  by_cases h : start > 0 ∨ endv ≠ none
  · rw [if_pos h]
    cases endv with
    | none =>
      simp only [streamRequest, if_pos h]
      rfl
    | some e =>
      simp only [streamRequest, if_pos h]
      rfl
  · rw [if_neg h]
    simp only [streamRequest, if_neg h]
    rfl

/-- C7: when the sink has not yet sent headers, `streamFile` forwards the
upstream status code, and forwards exactly the upstream response headers
other than `content-encoding` and `transfer-encoding` (stated for the
distinct lowercase header names Node delivers). -/
theorem claim_c7 (upStatus : Nat) (upHeaders : List (String × String))
    (hnd : (upHeaders.map (fun kv => jsToLower kv.1)).Nodup) :
    (forwardHeaders false upStatus upHeaders
        { statusCode := 200, headers := [] }).statusCode = upStatus
    ∧ (∀ kv ∈ upHeaders, notBannedHeader kv = true →
        kv ∈ (forwardHeaders false upStatus upHeaders
          { statusCode := 200, headers := [] }).headers)
    ∧ (∀ kv ∈ (forwardHeaders false upStatus upHeaders
          { statusCode := 200, headers := [] }).headers,
        kv ∈ upHeaders ∧ jsToLower kv.1 ≠ "content-encoding"
          ∧ jsToLower kv.1 ≠ "transfer-encoding") := by
  have hfold :
      (forwardHeaders false upStatus upHeaders
        { statusCode := 200, headers := [] }).headers
      = upHeaders.filter notBannedHeader := by
    simp only [forwardHeaders, if_neg (Bool.false_ne_true ∘ congrArg id)]
    exact foldl_setHeader_eq upHeaders [] (by simp) hnd
  refine ⟨rfl, fun kv hm hb => ?_, fun kv hm => ?_⟩
  · rw [hfold]
    exact List.mem_filter.mpr ⟨hm, hb⟩
  · rw [hfold] at hm
    have h1 := List.mem_filter.mp hm
    refine ⟨h1.1, ?_, ?_⟩
    · have := h1.2
      simp only [notBannedHeader, Bool.and_eq_true, bne_iff_ne, ne_eq] at this
      exact this.1
    · have := h1.2
      simp only [notBannedHeader, Bool.and_eq_true, bne_iff_ne, ne_eq] at this
      exact this.2

/-- C7 (witness): forwarding applied to a concrete upstream header set
containing a banned `content-encoding` header. -/
theorem claim_c7_witness :
    (forwardHeaders false 206
      [("content-type", "video/mp4"), ("content-encoding", "gzip")]
      { statusCode := 200, headers := [] }).statusCode = 206
    ∧ ("content-type", "video/mp4") ∈ (forwardHeaders false 206
        [("content-type", "video/mp4"), ("content-encoding", "gzip")]
        { statusCode := 200, headers := [] }).headers := by
  have h := claim_c7 206
    [("content-type", "video/mp4"), ("content-encoding", "gzip")] (by decide)
  exact ⟨h.1, h.2.1 ("content-type", "video/mp4") (by simp) (by decide)⟩

/-- C8: `getFileSize` issues a single HEAD request and, when the exchange
completes with a response, returns the integer value of `content-length`
when that header is present (and parses as an integer) and `0` when it is
absent; a completed response never fails, and the only failures are the
request error and the timeout. -/
theorem claim_c8 :
    (∀ filePath, (sizeRequest filePath).method = "HEAD")
    ∧ (∀ (hs : List (String × String)) (s : String) (n : Int),
        lookupHeader hs "content-length" = some s → jsParseInt s = some n →
        getFileSizeResult (HeadExchange.response hs) = .ok (.int n))
    ∧ (∀ hs, lookupHeader hs "content-length" = none →
        getFileSizeResult (HeadExchange.response hs) = .ok (.int 0))
    ∧ (∀ hs, ∃ v, getFileSizeResult (HeadExchange.response hs) = .ok v)
    ∧ (∀ m, getFileSizeResult (HeadExchange.reqError m) = .error m)
    ∧ getFileSizeResult HeadExchange.timeout = .error "Request timeout" := by
  refine ⟨fun _ => rfl, fun hs s n h1 h2 => ?_, fun hs h1 => ?_,
    fun hs => ?_, fun m => rfl, rfl⟩
  · have hne : ¬ s = "" := by
      intro h
      subst h
      exact Option.noConfusion (show (none : Option Int) = some n from h2)
    simp only [getFileSizeResult, h1, if_neg hne, jnumParse, h2]
  · simp only [getFileSizeResult, h1]
  · simp only [getFileSizeResult]
    cases lookupHeader hs "content-length" with
    | none => exact ⟨.int 0, rfl⟩
    | some s =>
      refine ⟨if s = "" then .int 0 else jnumParse s, ?_⟩
      show (if s = "" then (Except.ok (JNum.int 0) : Except String JNum)
            else Except.ok (jnumParse s))
          = Except.ok (if s = "" then .int 0 else jnumParse s)
      split <;> rfl

/-- C8 (witness): the size computation applied to a concrete response with
`content-length: 1000`. -/
theorem claim_c8_witness :
    getFileSizeResult (HeadExchange.response [("content-length", "1000")])
      = .ok (.int 1000) :=
  claim_c8.2.1 [("content-length", "1000")] "1000" 1000 rfl rfl

/-- C9: on a parsed listing line whose post-anchor metadata is exactly two
tokens, the second token is used as the size whenever it is not `"-"` and
parses as an integer. -/
theorem claim_c9 (gd : String → Option DateVal) (cp line : String) (e : Entry)
    (t1 t2 : String) (n : Int)
    (h : lineToEntry gd cp line = some e) (hm : metaParts line = [t1, t2])
    (ht : t2 ≠ "-") (hp : jsParseInt t2 = some n) : e.size = n := by
  have hs := lineToEntry_size h
  rw [hm] at hs
  rw [hs]
  unfold sizeFromParts
  rw [if_pos (by simp), if_neg (by simp)]
  have hgd : ([t1, t2] : List String).getD 1 "" = t2 := rfl
  rw [hgd, if_pos ht, hp]

/-- C9 (witness): a concrete 2-token line whose second token is `"1234"`
gets size 1234. -/
theorem claim_c9_witness :
    lineToEntry genericDateNone "/" "<a href=\"f\">f</a> 07-Dec-2025 1234"
      = some { name := "f", type := "file", size := 1234, modified := none,
               path := "/f" }
    ∧ ({ name := "f", type := "file", size := 1234, modified := none,
         path := "/f" } : Entry).size = 1234 := by
  refine ⟨rfl, ?_⟩
  exact claim_c9 genericDateNone "/" "<a href=\"f\">f</a> 07-Dec-2025 1234"
    { name := "f", type := "file", size := 1234, modified := none,
      path := "/f" }
    "07-Dec-2025" "1234" 1234 rfl rfl (by decide) rfl

/-- Modelled from the claim's words: the path the fallback construction
would name had it used the anchor's `href` instead of its display text. -/
def fallbackHrefTarget (currentPath href : String) : String :=
  fallbackJoin currentPath (stripTrailingSlash href)

/-- C10 (counterexample): an anchor whose href (`"c/"`) differs from its
display text (`"c"`) whose emitted fallback path nevertheless names
exactly the href-derived target — refuting the claim's final clause as
stated. -/
theorem claim_c10_counterexample :
    ("c/" : String) ≠ "c"
    ∧ (fallbackEntry "/" "c/" "c").map Entry.path
        = some (fallbackHrefTarget "/" "c/") :=
  ⟨by decide, rfl⟩

/-- C10 (amended): in the fallback branch every emitted entry's path is
built by appending the anchor's trimmed visible text (with trailing slash
stripped) to `currentPath` — not the href, and with no URL-decoding of
either — and whenever text and href still differ after trimming and
trailing-slash stripping, the emitted path differs from the href-derived
path. -/
theorem claim_c10 (cp href text : String) (e : Entry)
    (h : fallbackEntry cp href text = some e) :
    e.path = fallbackJoin cp (stripTrailingSlash (jsTrim text))
    ∧ (stripTrailingSlash (jsTrim text) ≠ stripTrailingSlash href →
        e.path ≠ fallbackHrefTarget cp href) := by
  have hp : e.path = fallbackJoin cp (stripTrailingSlash (jsTrim text)) := by
    simp only [fallbackEntry] at h
    split at h
    · split at h
      · obtain rfl := Option.some.inj h
        rfl
      · exact Option.noConfusion h
    · exact Option.noConfusion h
  refine ⟨hp, fun hne habs => hne (fallbackJoin_inj (hp.symm.trans habs))⟩

/-- C10 (witness): the amended statement applied to an anchor with an
URL-encoded href and decoded display text. -/
theorem claim_c10_witness :
    fallbackEntry "/" "TV%20Series/" "TV Series/"
      = some { name := "TV Series", type := "directory", size := 0,
               modified := none, path := "/TV Series" }
    ∧ ("/TV Series" : String) ≠ fallbackHrefTarget "/" "TV%20Series/" := by
  refine ⟨rfl, ?_⟩
  exact (claim_c10 "/" "TV%20Series/" "TV Series/"
    { name := "TV Series", type := "directory", size := 0, modified := none,
      path := "/TV Series" } rfl).2 (by decide)

end DFLIX
